import Mathlib

/-!
Verification of the ChromaDB → SQLite migration pipeline
(`memory-mcp/scripts/migrate_chroma_to_sqlite.py`) against its
natural-language specification.

The embedding models Python scalar values as a sum type `Value`
(SQLite metadata cells are strings, ints or floats; JSON-decoded
coactivation values may additionally be null), machine floats as
exact rationals ℚ, metadata mappings as association lists, and each
destination table as an association list grown by insert-or-ignore.
The sentence-embedding model and the Japanese text normalizer are
kept as function parameters (`E`, `N`): the pipeline only applies
them, never inspects them.
-/

namespace MemMig

/-- A scalar value as it appears in a metadata cell of the source
store (string / int / float, `_read_chroma_collection` lines 133–141)
or as a JSON-decoded coactivation weight (which may also be null).
Floats are modelled as exact rationals. -/
inductive Value where
  | vStr (s : String)
  | vInt (n : Int)
  | vFloat (q : ℚ)
  | vNull
deriving DecidableEq, Repr

/-- Python truthiness of a `Value`: empty string, zero and null are
falsy, everything else is truthy. -/
def Value.truthy : Value → Bool
  | .vStr s => s ≠ ""
  | .vInt n => n ≠ 0
  | .vFloat q => q ≠ 0
  | .vNull => false

/-- Truncation of a rational toward zero, the rounding `int()` applies
to a Python float. -/
def ratTrunc (q : ℚ) : Int := if 0 ≤ q then ⌊q⌋ else ⌈q⌉

/-- Python `str.strip()`: drop leading and trailing whitespace. -/
def pyStrip (s : String) : String :=
  ⟨((s.data.dropWhile Char.isWhitespace).reverse.dropWhile Char.isWhitespace).reverse⟩

/-- Python `str.lower()` on the ASCII fragment relevant here. -/
def pyLower (s : String) : String := ⟨s.data.map Char.toLower⟩

/-- Numeric value of one decimal digit character. -/
def charDigit (c : Char) : Option Nat :=
  if c.isDigit then some (c.toNat - 48) else none

/-- Accumulate a decimal digit string left to right. -/
def digitsToNatAux : Nat → List Char → Option Nat
  | acc, [] => some acc
  | acc, c :: rest =>
    match charDigit c with
    | some d => digitsToNatAux (acc * 10 + d) rest
    | none => none

/-- A non-empty all-digit character list as a natural number. -/
def digitsToNat (l : List Char) : Option Nat :=
  if l.isEmpty then none else digitsToNatAux 0 l

/-- Decimal fragment of Python's `float(str)` builtin: digits with at
most one decimal point (either side may be empty, not both).
Exponents, `inf`/`nan` spellings and underscore separators of the
builtin are outside the modelled fragment; every input used below
lies inside it. -/
def parseUnsignedFloat (l : List Char) : Option ℚ :=
  match l.splitOn '.' with
  | [a] => (digitsToNat a).map (fun n => (n : ℚ))
  | [a, b] =>
    if a.isEmpty && b.isEmpty then none
    else do
      let ia ← if a.isEmpty then some 0 else digitsToNat a
      let ib ← if b.isEmpty then some 0 else digitsToNat b
      some ((ia : ℚ) + (ib : ℚ) / (10 : ℚ) ^ b.length)
  | _ => none

/-- Python `float(str)`: strip, then optional sign, then the decimal
fragment. -/
def parseFloat (s : String) : Option ℚ :=
  match (pyStrip s).data with
  | '-' :: rest => (parseUnsignedFloat rest).map Neg.neg
  | '+' :: rest => parseUnsignedFloat rest
  | l => parseUnsignedFloat l

/-- Python `int(str)`: strip, then optional sign, then digits only. -/
def parseIntChars : List Char → Option Int
  | '-' :: rest => (digitsToNat rest).map (fun n => -(n : Int))
  | '+' :: rest => (digitsToNat rest).map (fun n => (n : Int))
  | l => (digitsToNat l).map (fun n => (n : Int))

/-- Python `float(v)` on a scalar `Value`: floats pass through, ints
widen, strings are parsed, null raises (`none`). -/
def pyFloat : Value → Option ℚ
  | .vFloat q => some q
  | .vInt n => some (n : ℚ)
  | .vStr s => parseFloat s
  | .vNull => none

/-- Python `int(v)` on a scalar `Value`: ints pass through, floats
truncate toward zero, strings must spell an integer, null raises. -/
def pyInt : Value → Option Int
  | .vInt n => some n
  | .vFloat q => some (ratTrunc q)
  | .vStr s => parseIntChars (pyStrip s).data
  | .vNull => none

/-- Lookup in an association list by key (first match wins), the
model of Python `dict.get`. -/
def tlookup {K V : Type} [DecidableEq K] : List (K × V) → K → Option V
  | [], _ => none
  | (k0, v0) :: rest, k => if k0 = k then some v0 else tlookup rest k

/-- Key presence in an association list. -/
def thasKey {K V : Type} [DecidableEq K] (m : List (K × V)) (k : K) : Bool :=
  (tlookup m k).isSome

/-- `meta.get(key, default)`. -/
def mget (meta : List (String × Value)) (k : String) (d : Value) : Value :=
  (tlookup meta k).getD d

/-- `meta.get(key) or None`: the value when present and truthy, else
absent (migrate lines 249–251, 277, 284). -/
def mgetOrNone (meta : List (String × Value)) (k : String) : Option Value :=
  (tlookup meta k).bind (fun v => if v.truthy then some v else none)

/-- One raw record handed to the migration loop.  `meta` is the flat
metadata mapping from `_read_chroma_collection` with the
`coactivation` key already popped; `coact` is the result of
`json.loads` on that popped value when it yields a dict (migrate
lines 230–236), and `[]` when the key was absent, falsy, unparseable
or not a dict — in all of which cases the source extracts nothing. -/
structure MigRecord where
  id : String
  document : String
  meta : List (String × Value)
  coact : List (String × Value)
deriving DecidableEq, Repr

/-- Clamp a weight into `[0, 1]`: `max(0.0, min(1.0, w))`
(migrate line 240). -/
def clamp01 (w : ℚ) : ℚ := max 0 (min 1 w)

/-- Coactivation triples extracted from one record's decoded
coactivation mapping (migrate lines 237–243): each value is coerced
with `float`, clamped into `[0,1]`, and entries whose coercion raises
are dropped individually. -/
def extractCoact (memId : String) (coact : List (String × Value)) :
    List (String × String × ℚ) :=
  coact.filterMap fun p => (pyFloat p.2).map fun w => (memId, p.1, clamp01 w)

/-- `original_content = meta.get("content") or doc`
(migrate line 248). -/
def origContent (meta : List (String × Value)) (doc : String) : Value :=
  (mgetOrNone meta "content").getD (.vStr doc)

/-- `normalized = normalize_japanese(doc) if doc else ""`
(migrate line 253); `N` is the normalizer. -/
def normalizedOf (N : String → String) (doc : String) : String :=
  if doc = "" then "" else N doc

/-- One row of the destination `memories` table, in column order of
the INSERT at migrate lines 256–263. -/
structure MemRow where
  content : Value
  normalized_content : String
  timestamp : Value
  emotion : Value
  importance : Int
  category : Value
  access_count : Int
  last_accessed : Value
  linked_ids : Value
  episode_id : Option Value
  sensory_data : Value
  camera_position : Option Value
  tags : Value
  links : Value
  novelty_score : ℚ
  prediction_error : ℚ
  activation_count : Int
  last_activated : Value
  reading : Option Value
deriving DecidableEq, Repr

/-- Build the `memories` row inserted for a record (the tuple at
migrate lines 264–285).  The five numeric coercions (`int`/`float`)
can raise; the surrounding `try` then skips the record, modelled by
`none`. -/
def buildRow (N : String → String) (r : MigRecord) : Option MemRow := do
  let importance ← pyInt (mget r.meta "importance" (.vInt 3))
  let access_count ← pyInt (mget r.meta "access_count" (.vInt 0))
  let novelty ← pyFloat (mget r.meta "novelty_score" (.vFloat 0))
  let prediction ← pyFloat (mget r.meta "prediction_error" (.vFloat 0))
  let activation ← pyInt (mget r.meta "activation_count" (.vInt 0))
  some
    { content := origContent r.meta r.document
      normalized_content := normalizedOf N r.document
      timestamp := mget r.meta "timestamp" (.vStr "")
      emotion := mget r.meta "emotion" (.vStr "neutral")
      importance := importance
      category := mget r.meta "category" (.vStr "daily")
      access_count := access_count
      last_accessed := mget r.meta "last_accessed" (.vStr "")
      linked_ids := mget r.meta "linked_ids" (.vStr "")
      episode_id := mgetOrNone r.meta "episode_id"
      sensory_data := mget r.meta "sensory_data" (.vStr "")
      camera_position := mgetOrNone r.meta "camera_position"
      tags := mget r.meta "tags" (.vStr "")
      links := mget r.meta "links" (.vStr "")
      novelty_score := novelty
      prediction_error := prediction
      activation_count := activation
      last_activated := mget r.meta "last_activated" (.vStr "")
      reading := mgetOrNone r.meta "reading" }

/-- `docs_to_embed.append(normalized or original_content)`
(migrate line 289): the text handed to the embedding engine. -/
def embedText (N : String → String) (r : MigRecord) : Value :=
  let n := normalizedOf N r.document
  if n = "" then origContent r.meta r.document else .vStr n

/-- One row of the destination `episodes` table (migrate
lines 346–364). -/
structure EpRow where
  title : Value
  start_time : Value
  end_time : Option Value
  memory_ids : Value
  participants : Value
  location_context : Option Value
  summary : String
  emotion : Value
  importance : Int
deriving DecidableEq, Repr

/-- Build the `episodes` row for a record; `int(importance)` can
raise, skipping the episode (migrate lines 343–367). -/
def buildEpRow (r : MigRecord) : Option EpRow := do
  let importance ← pyInt (mget r.meta "importance" (.vInt 3))
  some
    { title := mget r.meta "title" (.vStr "")
      start_time := mget r.meta "start_time" (.vStr "")
      end_time := mgetOrNone r.meta "end_time"
      memory_ids := mget r.meta "memory_ids" (.vStr "")
      participants := mget r.meta "participants" (.vStr "")
      location_context := mgetOrNone r.meta "location_context"
      summary := r.document
      emotion := mget r.meta "emotion" (.vStr "neutral")
      importance := importance }

/-- Modelled from the spec: `encode_vector` from `memory_mcp.vector`
is not under `src/`.  Spec §4.4/§6: a vector of N IEEE-754
single-precision floats is encoded as a contiguous little-endian byte
blob of length 4·N, byte-exact.  Floats are represented by their
32-bit patterns (naturals < 2^32), which keeps NaN payloads, signed
zeros and denormals distinct.  This serializes one 32-bit word into
its four little-endian bytes. -/
def word32ToBytesLE (w : Nat) : List Nat :=
  [w % 256, w / 256 % 256, w / 256 ^ 2 % 256, w / 256 ^ 3 % 256]

/-- Modelled from the spec: the vector codec's `encode` — the
concatenation of the little-endian bytes of each 32-bit float
pattern. -/
def encode_vector (v : List Nat) : List Nat :=
  v.foldr (fun w acc => word32ToBytesLE w ++ acc) []

/-- Modelled from the spec: reassemble one 32-bit word from four
little-endian bytes. -/
def bytesToWord32LE (b0 b1 b2 b3 : Nat) : Nat :=
  b0 + 256 * b1 + 256 ^ 2 * b2 + 256 ^ 3 * b3

/-- Modelled from the spec: the vector codec's `decode` — split the
blob into 4-byte groups and reassemble each word. -/
def decode_vector : List Nat → List Nat
  | b0 :: b1 :: b2 :: b3 :: rest => bytesToWord32LE b0 b1 b2 b3 :: decode_vector rest
  | _ => []

/-- `INSERT OR IGNORE`: add the pair only when the key is absent;
an existing row is never overwritten. -/
def insertIgnore {K V : Type} [DecidableEq K] (m : List (K × V)) (k : K) (v : V) :
    List (K × V) :=
  if thasKey m k then m else m ++ [(k, v)]

/-- Run a list of insert-or-ignore statements in order. -/
def applyAll {K V : Type} [DecidableEq K] (L : List (K × V)) (m : List (K × V)) :
    List (K × V) :=
  L.foldl (fun acc p => insertIgnore acc p.1 p.2) m

/-- `memory_ids_in_dest` at the end of the memory loop: the ids whose
INSERT statement ran without raising (migrate lines 210, 287) —
`INSERT OR IGNORE` does not raise on a duplicate key, so this is
exactly the ids of records whose coercions all succeeded. -/
def successIds (N : String → String) (ms : List MigRecord) : List String :=
  ms.filterMap fun r => (buildRow N r).map fun _ => r.id

/-- The (id, row) pairs the memory loop attempts to insert, in
order (migrate lines 255–286). -/
def memRows (N : String → String) (ms : List MigRecord) : List (String × MemRow) :=
  ms.filterMap fun r => (buildRow N r).map fun row => (r.id, row)

/-- `valid_records` paired with their `docs_to_embed` entry
(migrate lines 288–289). -/
def validPairs (N : String → String) (ms : List MigRecord) : List (String × Value) :=
  ms.filterMap fun r => (buildRow N r).map fun _ => (r.id, embedText N r)

/-- The (memory_id, blob) pairs inserted into `embeddings` (migrate
lines 301–312): each valid record's embed text is encoded by the
model `E` (yielding float32 bit patterns) and serialized; the
`memory_id in memory_ids_in_dest` guard is kept from the source. -/
def embRows (N : String → String) (E : Value → List Nat) (ms : List MigRecord) :
    List (String × List Nat) :=
  (validPairs N ms).filterMap fun p =>
    if p.1 ∈ successIds N ms then some (p.1, encode_vector (E p.2)) else none

/-- `coactivation_entries`: the triples extracted from every record
of the collection, in loop order — extraction happens before the
insert attempt, so records that later fail to insert still
contribute triples (migrate lines 220, 229–245). -/
def coactEntries : List MigRecord → List (String × String × ℚ)
  | [] => []
  | r :: rest => extractCoact r.id r.coact ++ coactEntries rest

/-- The ((source, target), weight) pairs inserted into
`coactivation`: only entries with both endpoints in
`memory_ids_in_dest` (migrate lines 318–331). -/
def coactRows (N : String → String) (ms : List MigRecord) :
    List ((String × String) × ℚ) :=
  (coactEntries ms).filterMap fun e =>
    if e.1 ∈ successIds N ms ∧ e.2.1 ∈ successIds N ms then
      some ((e.1, e.2.1), e.2.2)
    else none

/-- The (id, row) pairs inserted into `episodes`
(migrate lines 335–369). -/
def epRows (es : List MigRecord) : List (String × EpRow) :=
  es.filterMap fun r => (buildEpRow r).map fun row => (r.id, row)

/-- The destination database: the four tables, each keyed by its
primary key (`_ddl`, migrate lines 28–88). -/
structure DestDB where
  memories : List (String × MemRow)
  embeddings : List (String × List Nat)
  coactivation : List ((String × String) × ℚ)
  episodes : List (String × EpRow)
deriving DecidableEq, Repr

/-- A freshly created destination. -/
def emptyDB : DestDB := ⟨[], [], [], []⟩

/-- Final-state semantics of the writing stages of `migrate`
(lines 204–369): every statement is `INSERT OR IGNORE` on the
table's primary key and the four tables are keyed independently, so
the end state is each table folded over its derived insert list. -/
def migrateRun (N : String → String) (E : Value → List Nat)
    (ms es : List MigRecord) (db : DestDB) : DestDB :=
  { memories := applyAll (memRows N ms) db.memories
    embeddings := applyAll (embRows N E ms) db.embeddings
    coactivation := applyAll (coactRows N ms) db.coactivation
    episodes := applyAll (epRows es) db.episodes }

/-- The environment facts that steer `migrate`'s fatal paths:
whether `import numpy` succeeds (line 155), whether
`chroma.sqlite3` exists under the source (line 166), whether the
embedding library and local model load (lines 191–200, an uncaught
ImportError terminates the interpreter with a non-zero status), and
the raw answer typed at the confirmation prompt (line 185). -/
structure MigEnv where
  numpyAvailable : Bool
  sourceDbExists : Bool
  modelAvailable : Bool
  userAnswer : String
deriving DecidableEq, Repr

/-- Outcome of a `migrate` invocation: process exit with a status
code, or normal completion; both carry the destination state. -/
inductive MigResult where
  | exited (code : Nat) (db : DestDB)
  | completed (db : DestDB)
deriving DecidableEq, Repr

/-- Control flow of `migrate` (lines 154–374): numpy import failure
exits 1; missing `chroma.sqlite3` exits 1; an answer other than `y`
(stripped, lowercased) exits 0 (`sys.exit(0)`, line 188); a missing
embedding library/model aborts with a non-zero status; otherwise the
writing stages run.  No destination row is written on any exit
path — the schema DDL itself only runs at line 208, after all four
gates. -/
def migrate (env : MigEnv) (N : String → String) (E : Value → List Nat)
    (ms es : List MigRecord) (db : DestDB) : MigResult :=
  if env.numpyAvailable = false then .exited 1 db
  else if env.sourceDbExists = false then .exited 1 db
  else if (pyLower (pyStrip env.userAnswer) == "y") = false then .exited 0 db
  else if env.modelAvailable = false then .exited 1 db
  else .completed (migrateRun N E ms es db)

/-! Association-list table lemmas. -/

theorem tlookup_cons {K V : Type} [DecidableEq K] (k0 : K) (v0 : V)
    (rest : List (K × V)) (k : K) :
    tlookup ((k0, v0) :: rest) k = if k0 = k then some v0 else tlookup rest k := rfl

theorem tlookup_append_some {K V : Type} [DecidableEq K]
    {m1 m2 : List (K × V)} {k : K} {v : V} (h : tlookup m1 k = some v) :
    tlookup (m1 ++ m2) k = some v := by
  induction m1 with
  | nil => simp [tlookup] at h
  | cons p rest ih =>
    obtain ⟨k0, v0⟩ := p
    rw [tlookup_cons] at h
    rw [List.cons_append, tlookup_cons]
    by_cases hk : k0 = k
    · rw [if_pos hk] at h ⊢; exact h
    · rw [if_neg hk] at h ⊢; exact ih h

theorem tlookup_append_none {K V : Type} [DecidableEq K]
    {m1 : List (K × V)} (m2 : List (K × V)) {k : K} (h : tlookup m1 k = none) :
    tlookup (m1 ++ m2) k = tlookup m2 k := by
  induction m1 with
  | nil => rfl
  | cons p rest ih =>
    obtain ⟨k0, v0⟩ := p
    rw [tlookup_cons] at h
    rw [List.cons_append, tlookup_cons]
    by_cases hk : k0 = k
    · rw [if_pos hk] at h; exact absurd h (by simp)
    · rw [if_neg hk] at h ⊢; exact ih h

theorem tlookup_append_inv {K V : Type} [DecidableEq K]
    {m1 m2 : List (K × V)} {k : K} {v : V} (h : tlookup (m1 ++ m2) k = some v) :
    tlookup m1 k = some v ∨ tlookup m2 k = some v := by
  cases h1 : tlookup m1 k with
  | none => exact Or.inr (by rw [tlookup_append_none m2 h1] at h; exact h)
  | some w => rw [tlookup_append_some h1] at h; exact Or.inl h

theorem mem_of_tlookup_some {K V : Type} [DecidableEq K]
    {m : List (K × V)} {k : K} {v : V} (h : tlookup m k = some v) : (k, v) ∈ m := by
  induction m with
  | nil => simp [tlookup] at h
  | cons p rest ih =>
    obtain ⟨k0, v0⟩ := p
    rw [tlookup_cons] at h
    by_cases hk : k0 = k
    · rw [if_pos hk] at h
      subst hk
      obtain rfl : v0 = v := by injection h
      exact List.mem_cons_self _ _
    · rw [if_neg hk] at h
      exact List.mem_cons_of_mem _ (ih h)

theorem thasKey_iff {K V : Type} [DecidableEq K] {m : List (K × V)} {k : K} :
    thasKey m k = true ↔ ∃ v, (k, v) ∈ m := by
  constructor
  · intro h
    rw [thasKey, Option.isSome_iff_exists] at h
    obtain ⟨v, hv⟩ := h
    exact ⟨v, mem_of_tlookup_some hv⟩
  · rintro ⟨v, hv⟩
    rw [thasKey, Option.isSome_iff_exists]
    induction m with
    | nil => cases hv
    | cons p rest ih =>
      obtain ⟨k0, v0⟩ := p
      rw [tlookup_cons]
      by_cases hk : k0 = k
      · exact ⟨v0, by rw [if_pos hk]⟩
      · rw [if_neg hk]
        rcases List.mem_cons.mp hv with heq | hmem
        · exact absurd (congrArg Prod.fst heq).symm hk
        · exact ih hmem

theorem tlookup_insertIgnore_of_some {K V : Type} [DecidableEq K]
    {m : List (K × V)} {k' : K} {w : V} (k : K) (v : V)
    (h : tlookup m k' = some w) :
    tlookup (insertIgnore m k v) k' = some w := by
  unfold insertIgnore
  split
  · exact h
  · exact tlookup_append_some h

theorem thasKey_insertIgnore_self {K V : Type} [DecidableEq K]
    (m : List (K × V)) (k : K) (v : V) :
    thasKey (insertIgnore m k v) k = true := by
  unfold insertIgnore
  split
  case isTrue h => exact h
  case isFalse h =>
    rw [thasKey] at h ⊢
    rw [tlookup_append_none _ (by cases h2 : tlookup m k <;> simp [h2] at h ⊢)]
    simp [tlookup_cons]

theorem thasKey_insertIgnore_mono {K V : Type} [DecidableEq K]
    {m : List (K × V)} {k' : K} (k : K) (v : V) (h : thasKey m k' = true) :
    thasKey (insertIgnore m k v) k' = true := by
  rw [thasKey, Option.isSome_iff_exists] at h ⊢
  obtain ⟨w, hw⟩ := h
  exact ⟨w, tlookup_insertIgnore_of_some k v hw⟩

theorem insertIgnore_of_hasKey {K V : Type} [DecidableEq K]
    {m : List (K × V)} {k : K} (v : V) (h : thasKey m k = true) :
    insertIgnore m k v = m := by
  simp [insertIgnore, h]

theorem tlookup_insertIgnore_inv {K V : Type} [DecidableEq K]
    {m : List (K × V)} {k k' : K} {v w : V}
    (h : tlookup (insertIgnore m k v) k' = some w) :
    tlookup m k' = some w ∨ (k = k' ∧ v = w) := by
  unfold insertIgnore at h
  split at h
  · exact Or.inl h
  · rcases tlookup_append_inv h with h1 | h1
    · exact Or.inl h1
    · rw [tlookup_cons] at h1
      by_cases hk : k = k'
      · rw [if_pos hk] at h1
        exact Or.inr ⟨hk, by injection h1⟩
      · rw [if_neg hk] at h1
        exact absurd h1 (by simp [tlookup])

theorem applyAll_cons {K V : Type} [DecidableEq K] (p : K × V)
    (L m : List (K × V)) :
    applyAll (p :: L) m = applyAll L (insertIgnore m p.1 p.2) := rfl

theorem tlookup_applyAll_of_some {K V : Type} [DecidableEq K]
    {m : List (K × V)} {k : K} {v : V} (L : List (K × V))
    (h : tlookup m k = some v) :
    tlookup (applyAll L m) k = some v := by
  induction L generalizing m with
  | nil => exact h
  | cons p L ih =>
    rw [applyAll_cons]
    exact ih (tlookup_insertIgnore_of_some p.1 p.2 h)

theorem thasKey_applyAll_mono {K V : Type} [DecidableEq K]
    {m : List (K × V)} {k : K} (L : List (K × V)) (h : thasKey m k = true) :
    thasKey (applyAll L m) k = true := by
  rw [thasKey, Option.isSome_iff_exists] at h ⊢
  obtain ⟨w, hw⟩ := h
  exact ⟨w, tlookup_applyAll_of_some L hw⟩

theorem thasKey_applyAll_of_mem {K V : Type} [DecidableEq K]
    {L : List (K × V)} {k : K} {v : V} (m : List (K × V)) (h : (k, v) ∈ L) :
    thasKey (applyAll L m) k = true := by
  induction L generalizing m with
  | nil => cases h
  | cons p L ih =>
    rw [applyAll_cons]
    rcases List.mem_cons.mp h with heq | hmem
    · subst heq
      exact thasKey_applyAll_mono L (thasKey_insertIgnore_self m k v)
    · exact ih _ hmem

theorem applyAll_eq_self {K V : Type} [DecidableEq K]
    {L m : List (K × V)} (h : ∀ p ∈ L, thasKey m p.1 = true) :
    applyAll L m = m := by
  induction L with
  | nil => rfl
  | cons p L ih =>
    rw [applyAll_cons, insertIgnore_of_hasKey p.2 (h p (List.mem_cons_self _ _))]
    exact ih fun q hq => h q (List.mem_cons_of_mem _ hq)

theorem applyAll_idem {K V : Type} [DecidableEq K] (L m : List (K × V)) :
    applyAll L (applyAll L m) = applyAll L m :=
  applyAll_eq_self fun p hp => thasKey_applyAll_of_mem m (by exact hp)

theorem thasKey_applyAll_iff {K V : Type} [DecidableEq K]
    {L m : List (K × V)} {k : K} :
    thasKey (applyAll L m) k = true ↔ thasKey m k = true ∨ ∃ v, (k, v) ∈ L := by
  constructor
  · intro h
    rw [thasKey, Option.isSome_iff_exists] at h
    obtain ⟨w, hw⟩ := h
    induction L generalizing m with
    | nil =>
      refine Or.inl ?_
      rw [thasKey, Option.isSome_iff_exists]
      exact ⟨w, hw⟩
    | cons p L ih =>
      rw [applyAll_cons] at hw
      rcases ih hw with h1 | h1
      · rw [thasKey, Option.isSome_iff_exists] at h1
        obtain ⟨u, hu⟩ := h1
        rcases tlookup_insertIgnore_inv hu with h2 | ⟨h2, h3⟩
        · exact Or.inl (by rw [thasKey, h2]; rfl)
        · exact Or.inr ⟨p.2, by rw [← h2]; exact List.mem_cons_self _ _⟩
      · exact Or.inr (h1.imp fun v hv => List.mem_cons_of_mem _ hv)
  · rintro (h | ⟨v, hv⟩)
    · exact thasKey_applyAll_mono L h
    · exact thasKey_applyAll_of_mem m hv

theorem tlookup_applyAll_inv {K V : Type} [DecidableEq K]
    {L m : List (K × V)} {k : K} {v : V}
    (h : tlookup (applyAll L m) k = some v) :
    tlookup m k = some v ∨ (k, v) ∈ L := by
  induction L generalizing m with
  | nil => exact Or.inl h
  | cons p L ih =>
    rw [applyAll_cons] at h
    rcases ih h with h1 | h1
    · rcases tlookup_insertIgnore_inv h1 with h2 | ⟨h2, h3⟩
      · exact Or.inl h2
      · refine Or.inr ?_
        have : p = (k, v) := by
          obtain ⟨pk, pv⟩ := p
          simp only at h2 h3
          rw [h2, h3]
        rw [← this]
        exact List.mem_cons_self _ _
    · exact Or.inr (List.mem_cons_of_mem _ h1)

/-! Record-transformer lemmas. -/

theorem buildRow_inv {N : String → String} {r : MigRecord} {row : MemRow}
    (hrow : buildRow N r = some row) :
    pyInt (mget r.meta "importance" (.vInt 3)) = some row.importance
    ∧ pyInt (mget r.meta "access_count" (.vInt 0)) = some row.access_count
    ∧ pyFloat (mget r.meta "novelty_score" (.vFloat 0)) = some row.novelty_score
    ∧ pyFloat (mget r.meta "prediction_error" (.vFloat 0)) = some row.prediction_error
    ∧ pyInt (mget r.meta "activation_count" (.vInt 0)) = some row.activation_count
    ∧ row.content = origContent r.meta r.document
    ∧ row.normalized_content = normalizedOf N r.document
    ∧ row.emotion = mget r.meta "emotion" (.vStr "neutral")
    ∧ row.category = mget r.meta "category" (.vStr "daily") := by
  unfold buildRow at hrow
  simp only [bind, Option.bind_eq_some, Option.some.injEq] at hrow
  obtain ⟨i1, h1, i2, h2, q1, h3, q2, h4, i3, h5, heq⟩ := hrow
  subst heq
  exact ⟨h1, h2, h3, h4, h5, rfl, rfl, rfl, rfl⟩

theorem buildRow_none_of_importance {N : String → String} {r : MigRecord}
    (h : pyInt (mget r.meta "importance" (.vInt 3)) = none) :
    buildRow N r = none := by
  unfold buildRow
  simp [h]

theorem buildRow_none_of_access_count {N : String → String} {r : MigRecord}
    (h : pyInt (mget r.meta "access_count" (.vInt 0)) = none) :
    buildRow N r = none := by
  unfold buildRow
  cases h1 : pyInt (mget r.meta "importance" (.vInt 3)) <;> simp [h1, h]

theorem buildRow_none_of_novelty {N : String → String} {r : MigRecord}
    (h : pyFloat (mget r.meta "novelty_score" (.vFloat 0)) = none) :
    buildRow N r = none := by
  unfold buildRow
  cases h1 : pyInt (mget r.meta "importance" (.vInt 3)) <;>
    cases h2 : pyInt (mget r.meta "access_count" (.vInt 0)) <;>
      simp [h1, h2, h]

theorem buildRow_none_of_prediction {N : String → String} {r : MigRecord}
    (h : pyFloat (mget r.meta "prediction_error" (.vFloat 0)) = none) :
    buildRow N r = none := by
  unfold buildRow
  cases h1 : pyInt (mget r.meta "importance" (.vInt 3)) <;>
    cases h2 : pyInt (mget r.meta "access_count" (.vInt 0)) <;>
      cases h3 : pyFloat (mget r.meta "novelty_score" (.vFloat 0)) <;>
        simp [h1, h2, h3, h]

theorem buildRow_none_of_activation {N : String → String} {r : MigRecord}
    (h : pyInt (mget r.meta "activation_count" (.vInt 0)) = none) :
    buildRow N r = none := by
  unfold buildRow
  cases h1 : pyInt (mget r.meta "importance" (.vInt 3)) <;>
    cases h2 : pyInt (mget r.meta "access_count" (.vInt 0)) <;>
      cases h3 : pyFloat (mget r.meta "novelty_score" (.vFloat 0)) <;>
        cases h4 : pyFloat (mget r.meta "prediction_error" (.vFloat 0)) <;>
          simp [h1, h2, h3, h4, h]

theorem mem_coactRows_iff {N : String → String} {ms : List MigRecord}
    {a b : String} {w : ℚ} :
    ((a, b), w) ∈ coactRows N ms ↔
      (a, b, w) ∈ coactEntries ms ∧ a ∈ successIds N ms ∧ b ∈ successIds N ms := by
  unfold coactRows
  rw [List.mem_filterMap]
  constructor
  · rintro ⟨e, he, hf⟩
    split at hf
    case isTrue hc =>
      simp only [Option.some.injEq, Prod.mk.injEq] at hf
      obtain ⟨⟨ha, hb⟩, hw⟩ := hf
      subst ha; subst hb; subst hw
      exact ⟨he, hc.1, hc.2⟩
    case isFalse => exact absurd hf (by simp)
  · rintro ⟨he, hs, ht⟩
    exact ⟨(a, b, w), he, by simp [hs, ht]⟩

/-! Claim theorems. -/

/-- C2: every coactivation entry whose raw weight coerces to a float `w`
is extracted with weight `w` clamped into `[0, 1]`: values above 1 become
1, values below 0 become 0, and in-range values are kept unchanged. -/
theorem coact_weight_clamped (memId t : String) (v : Value) (w : ℚ)
    (coact : List (String × Value)) (hmem : (t, v) ∈ coact)
    (hw : pyFloat v = some w) :
    (memId, t, clamp01 w) ∈ extractCoact memId coact
    ∧ (1 < w → clamp01 w = 1)
    ∧ (w < 0 → clamp01 w = 0)
    ∧ (0 ≤ w → w ≤ 1 → clamp01 w = w) := by
  refine ⟨?_, ?_, ?_, ?_⟩
  · unfold extractCoact
    rw [List.mem_filterMap]
    exact ⟨(t, v), hmem, by simp [hw]⟩
  · intro h
    unfold clamp01
    rw [min_eq_left h.le, max_eq_right zero_le_one]
  · intro h
    unfold clamp01
    rw [min_eq_right (h.le.trans zero_le_one), max_eq_left h.le]
  · intro h0 h1
    unfold clamp01
    rw [min_eq_right h1, max_eq_right h0]

/-- Witness for C2 at the spec's example inputs: raw weight 1.7 is
stored as 1, raw weight -0.3 as 0, raw weight 0.95 unchanged. -/
theorem coact_weight_clamped_w :
    ("m1", "t1", (1 : ℚ)) ∈ extractCoact "m1" [("t1", Value.vFloat (17 / 10))]
    ∧ clamp01 (17 / 10) = 1 ∧ clamp01 (-3 / 10) = 0 ∧ clamp01 (19 / 20) = 19 / 20 := by
  have h := coact_weight_clamped "m1" "t1" (.vFloat (17 / 10)) (17 / 10)
    [("t1", .vFloat (17 / 10))] (by simp) rfl
  have h17 : clamp01 (17 / 10 : ℚ) = 1 := h.2.1 (by norm_num)
  have h3 := coact_weight_clamped "m1" "t1" (.vFloat (-3 / 10)) (-3 / 10)
    [("t1", .vFloat (-3 / 10))] (by simp) rfl
  have h19 := coact_weight_clamped "m1" "t1" (.vFloat (19 / 20)) (19 / 20)
    [("t1", .vFloat (19 / 20))] (by simp) rfl
  exact ⟨h17 ▸ h.1, h17, h3.2.2.1 (by norm_num), h19.2.2.2 (by norm_num) (by norm_num)⟩

/-- C5: a record whose metadata lacks the `importance` key is inserted
with importance 3, one lacking `emotion` with emotion "neutral", and one
lacking `category` with category "daily". -/
theorem missing_metadata_defaults (N : String → String) (r : MigRecord)
    (row : MemRow)
    (h1 : tlookup r.meta "importance" = none)
    (h2 : tlookup r.meta "emotion" = none)
    (h3 : tlookup r.meta "category" = none)
    (hrow : buildRow N r = some row) :
    row.importance = 3 ∧ row.emotion = .vStr "neutral"
    ∧ row.category = .vStr "daily" := by
  obtain ⟨hi, _, _, _, _, _, _, he, hc⟩ := buildRow_inv hrow
  rw [mget, h1, Option.getD_none] at hi
  rw [mget, h2, Option.getD_none] at he
  rw [mget, h3, Option.getD_none] at hc
  refine ⟨?_, he, hc⟩
  rw [pyInt] at hi
  injection hi with hi
  exact hi.symm

/-- Witness for C5: a record with empty metadata is inserted with
importance 3, emotion "neutral" and category "daily". -/
theorem missing_metadata_defaults_w :
    (buildRow (fun s => s) ⟨"m5", "doc5", [], []⟩).map MemRow.importance = some 3
    ∧ (buildRow (fun s => s) ⟨"m5", "doc5", [], []⟩).map MemRow.emotion
        = some (.vStr "neutral")
    ∧ (buildRow (fun s => s) ⟨"m5", "doc5", [], []⟩).map MemRow.category
        = some (.vStr "daily") := by
  cases hrow : buildRow (fun s => s) ⟨"m5", "doc5", [], []⟩ with
  | none => exact absurd hrow (by decide)
  | some row =>
    obtain ⟨h1, h2, h3⟩ :=
      missing_metadata_defaults (fun s => s) ⟨"m5", "doc5", [], []⟩ row
        rfl rfl rfl hrow
    simp [h1, h2, h3]

/-- C6 counterexample: a record whose metadata mapping contains the
`content` key with an empty-string value is inserted with the document
text as content, not the metadata value — so the content column does
not equal the metadata's content field even though that field is
present. -/
theorem content_from_metadata_cex :
    tlookup ([("content", Value.vStr "")] : List (String × Value)) "content"
      = some (.vStr "")
    ∧ (buildRow (fun s => s) ⟨"m6", "hello", [("content", .vStr "")], []⟩).map
        MemRow.content = some (.vStr "hello")
    ∧ Value.vStr "hello" ≠ Value.vStr "" := by
  refine ⟨rfl, ?_, by decide⟩
  decide

/-- C6 amended: the content column equals the metadata's `content`
field when that field is present and truthy (non-empty string,
non-zero number); when the field is absent, or present but falsy, the
record's document text is stored instead. -/
theorem content_from_metadata_amended (N : String → String) (r : MigRecord)
    (row : MemRow) (hrow : buildRow N r = some row) :
    (∀ v : Value, tlookup r.meta "content" = some v → v.truthy = true →
      row.content = v)
    ∧ (∀ v : Value, tlookup r.meta "content" = some v → v.truthy = false →
      row.content = .vStr r.document)
    ∧ (tlookup r.meta "content" = none → row.content = .vStr r.document) := by
  obtain ⟨_, _, _, _, _, hc, _, _, _⟩ := buildRow_inv hrow
  rw [origContent, mgetOrNone] at hc
  refine ⟨?_, ?_, ?_⟩
  · intro v hv ht
    rw [hv] at hc
    simp only [Option.some_bind, ht, if_true] at hc
    rw [hc]
    rfl
  · intro v hv ht
    rw [hv] at hc
    simp only [Option.some_bind, ht] at hc
    rw [hc]
    rfl
  · intro hv
    rw [hv] at hc
    exact hc

/-- Witness for C6 amended: a present and non-empty `content` field is
stored as the content column. -/
theorem content_from_metadata_amended_w :
    (buildRow (fun s => s) ⟨"m6w", "doc", [("content", .vStr "X")], []⟩).map
      MemRow.content = some (.vStr "X") := by
  cases hrow : buildRow (fun s => s) ⟨"m6w", "doc", [("content", .vStr "X")], []⟩ with
  | none => exact absurd hrow (by decide)
  | some row =>
    have h := (content_from_metadata_amended (fun s => s)
      ⟨"m6w", "doc", [("content", .vStr "X")], []⟩ row hrow).1 (.vStr "X") rfl (by decide)
    simp [h]

/-- C7: the stored normalized_content is the normalizer applied to the
record's document (given the spec's property that the normalizer maps
the empty document to the empty string), and the text handed to the
embedding engine is the normalized form, falling back to the canonical
content when normalization yields the empty string. -/
theorem normalized_content_and_embed_input (N : String → String)
    (hN : N "" = "") (r : MigRecord) (row : MemRow)
    (hrow : buildRow N r = some row) :
    row.normalized_content = N r.document
    ∧ (r.document = "" → row.normalized_content = "")
    ∧ embedText N r = (if row.normalized_content = "" then
        origContent r.meta r.document else .vStr row.normalized_content)
    ∧ validPairs N [r] = [(r.id, embedText N r)] := by
  obtain ⟨_, _, _, _, _, _, hn, _, _⟩ := buildRow_inv hrow
  have hnorm : normalizedOf N r.document = N r.document := by
    unfold normalizedOf
    by_cases hd : r.document = ""
    · rw [if_pos hd, hd, hN]
    · rw [if_neg hd]
  refine ⟨hn.trans hnorm, ?_, ?_, ?_⟩
  · intro hd
    rw [hn, normalizedOf, if_pos hd]
  · rw [embedText, hn]
  · simp [validPairs, hrow]

/-- Witness for C7 with the identity normalizer: the normalized
content of a record with document "dok" is "dok", and "dok" is also
the embedded text. -/
theorem normalized_content_and_embed_input_w :
    (buildRow (fun s => s) ⟨"m7", "dok", [], []⟩).map MemRow.normalized_content
      = some "dok"
    ∧ embedText (fun s => s) ⟨"m7", "dok", [], []⟩ = .vStr "dok" := by
  cases hrow : buildRow (fun s => s) ⟨"m7", "dok", [], []⟩ with
  | none => exact absurd hrow (by decide)
  | some row =>
    obtain ⟨h1, _, h3, _⟩ := normalized_content_and_embed_input (fun s => s) rfl
      ⟨"m7", "dok", [], []⟩ row hrow
    refine ⟨by simp [h1], ?_⟩
    rw [h3, h1]
    simp

/-- C1: in a run against a fresh destination, a coactivation edge
(s, t) is stored iff some triple (s, t, w) was extracted and both s
and t are in the set of memory ids persisted in that run; every stored
edge comes from an extracted triple; and for any id not in the
persisted set, no edge referencing it is ever stored, no matter how
many extracted triples reference it (such triples are simply dropped —
the reconciler is a total function, never an error path). -/
theorem coact_edge_reconciliation (N : String → String) (E : Value → List Nat)
    (ms es : List MigRecord) (s t : String) :
    (thasKey (migrateRun N E ms es emptyDB).coactivation (s, t) = true ↔
      (∃ w, (s, t, w) ∈ coactEntries ms)
      ∧ s ∈ successIds N ms ∧ t ∈ successIds N ms)
    ∧ (∀ w, tlookup (migrateRun N E ms es emptyDB).coactivation (s, t) = some w →
        (s, t, w) ∈ coactEntries ms)
    ∧ (∀ i, i ∉ successIds N ms →
        thasKey (migrateRun N E ms es emptyDB).coactivation (i, t) = false
        ∧ thasKey (migrateRun N E ms es emptyDB).coactivation (t, i) = false) := by
  have hconv : (migrateRun N E ms es emptyDB).coactivation
      = applyAll (coactRows N ms) [] := rfl
  refine ⟨?_, ?_, ?_⟩
  · rw [hconv, thasKey_applyAll_iff]
    constructor
    · rintro (h | ⟨v, hv⟩)
      · simp [thasKey, tlookup] at h
      · obtain ⟨he, hs, ht⟩ := mem_coactRows_iff.mp hv
        exact ⟨⟨v, he⟩, hs, ht⟩
    · rintro ⟨⟨v, hv⟩, hs, ht⟩
      exact Or.inr ⟨v, mem_coactRows_iff.mpr ⟨hv, hs, ht⟩⟩
  · intro w hw
    rw [hconv] at hw
    rcases tlookup_applyAll_inv hw with h | h
    · simp [tlookup] at h
    · exact (mem_coactRows_iff.mp h).1
  · intro i hi
    constructor
    · rw [hconv, ← Bool.not_eq_true, thasKey_applyAll_iff]
      rintro (h | ⟨v, hv⟩)
      · simp [thasKey, tlookup] at h
      · exact hi (mem_coactRows_iff.mp hv).2.1
    · rw [hconv, ← Bool.not_eq_true, thasKey_applyAll_iff]
      rintro (h | ⟨v, hv⟩)
      · simp [thasKey, tlookup] at h
      · exact hi (mem_coactRows_iff.mp hv).2.2

/-- Witness for C1: a two-record source where record id1 carries
coactivation weights toward id2 (persisted) and toward "ghost" (never
a memory id): the (id1, id2) edge is stored, and no edge referencing
"ghost" is stored. -/
theorem coact_edge_reconciliation_w :
    thasKey (migrateRun (fun x => x) (fun _ => [1])
        [⟨"id1", "d1", [], [("id2", .vFloat (19 / 20)), ("ghost", .vFloat (1 / 2))]⟩,
         ⟨"id2", "d2", [], []⟩] [] emptyDB).coactivation ("id1", "id2") = true
    ∧ thasKey (migrateRun (fun x => x) (fun _ => [1])
        [⟨"id1", "d1", [], [("id2", .vFloat (19 / 20)), ("ghost", .vFloat (1 / 2))]⟩,
         ⟨"id2", "d2", [], []⟩] [] emptyDB).coactivation ("id1", "ghost") = false := by
  have hent : coactEntries
      [⟨"id1", "d1", [], [("id2", .vFloat (19 / 20)), ("ghost", .vFloat (1 / 2))]⟩,
       ⟨"id2", "d2", [], []⟩]
      = [("id1", "id2", clamp01 (19 / 20)), ("id1", "ghost", clamp01 (1 / 2))] := by
    simp [coactEntries, extractCoact, pyFloat]
  have h := coact_edge_reconciliation (fun x => x) (fun _ => [1])
    [⟨"id1", "d1", [], [("id2", .vFloat (19 / 20)), ("ghost", .vFloat (1 / 2))]⟩,
     ⟨"id2", "d2", [], []⟩] [] "id1" "id2"
  refine ⟨h.1.mpr ⟨⟨clamp01 (19 / 20), by rw [hent]; simp⟩, by decide, by decide⟩, ?_⟩
  exact ((coact_edge_reconciliation (fun x => x) (fun _ => [1])
    [⟨"id1", "d1", [], [("id2", .vFloat (19 / 20)), ("ghost", .vFloat (1 / 2))]⟩,
     ⟨"id2", "d2", [], []⟩] [] "id1" "id1").2.2 "ghost" (by decide)).2

/-- C3: running the writing stages twice with the same source records
against the same destination is idempotent — after the second run
every destination table is identical to its state after the first
run — and no pre-existing row of any table is ever overwritten,
because every insert is insert-or-ignore on the table's primary
key. -/
theorem migration_idempotent (N : String → String) (E : Value → List Nat)
    (ms es : List MigRecord) (db : DestDB) :
    migrateRun N E ms es (migrateRun N E ms es db) = migrateRun N E ms es db
    ∧ (∀ k v, tlookup db.memories k = some v →
        tlookup (migrateRun N E ms es db).memories k = some v)
    ∧ (∀ k v, tlookup db.embeddings k = some v →
        tlookup (migrateRun N E ms es db).embeddings k = some v)
    ∧ (∀ k v, tlookup db.coactivation k = some v →
        tlookup (migrateRun N E ms es db).coactivation k = some v)
    ∧ (∀ k v, tlookup db.episodes k = some v →
        tlookup (migrateRun N E ms es db).episodes k = some v) := by
  refine ⟨?_, ?_, ?_, ?_, ?_⟩
  · show DestDB.mk _ _ _ _ = DestDB.mk _ _ _ _
    simp only [migrateRun]
    rw [applyAll_idem, applyAll_idem, applyAll_idem, applyAll_idem]
  · intro k v h
    exact tlookup_applyAll_of_some _ h
  · intro k v h
    exact tlookup_applyAll_of_some _ h
  · intro k v h
    exact tlookup_applyAll_of_some _ h
  · intro k v h
    exact tlookup_applyAll_of_some _ h

/-- Witness for C3: rerunning on a destination that already holds an
episode row keeps that row intact. -/
theorem migration_idempotent_w :
    tlookup (migrateRun (fun x => x) (fun _ => [])
      [⟨"a", "d", [], []⟩] []
      ⟨[], [], [], [("ep0", ⟨.vStr "t", .vStr "s", none, .vStr "", .vStr "",
        none, "sum", .vStr "neutral", 3⟩)]⟩).episodes "ep0"
      = some ⟨.vStr "t", .vStr "s", none, .vStr "", .vStr "",
        none, "sum", .vStr "neutral", 3⟩ :=
  (migration_idempotent (fun x => x) (fun _ => [])
    [⟨"a", "d", [], []⟩] []
    ⟨[], [], [], [("ep0", ⟨.vStr "t", .vStr "s", none, .vStr "", .vStr "",
      none, "sum", .vStr "neutral", 3⟩)]⟩).2.2.2.2 "ep0" _ rfl

/-- C4 counterexample: when the user declines the confirmation prompt
(everything else available), the process terminates via `sys.exit(0)` —
exit status zero, not the non-zero status the claim requires. -/
theorem fatal_exit_codes_cex :
    migrate ⟨true, true, true, "n"⟩ (fun x => x) (fun _ => []) [] [] emptyDB
      = .exited 0 emptyDB := by
  decide

/-- C4 amended: a non-zero exit occurs exactly when the numeric
library is unavailable, the source's chroma.sqlite3 is absent, or the
embedding library/model is unavailable after confirmation; declining
the confirmation prompt also terminates immediately with a diagnostic,
but with exit status zero, not non-zero; on every exit path no
destination row has been written. -/
theorem fatal_exit_codes_amended (env : MigEnv) (N : String → String)
    (E : Value → List Nat) (ms es : List MigRecord) (db : DestDB) :
    ((∃ c, c ≠ 0 ∧ migrate env N E ms es db = .exited c db) ↔
      (env.numpyAvailable = false ∨ env.sourceDbExists = false ∨
        (pyLower (pyStrip env.userAnswer) = "y" ∧ env.modelAvailable = false)))
    ∧ (env.numpyAvailable = true → env.sourceDbExists = true →
        pyLower (pyStrip env.userAnswer) ≠ "y" →
        migrate env N E ms es db = .exited 0 db)
    ∧ (∀ c dbx, migrate env N E ms es db = .exited c dbx → dbx = db) := by
  refine ⟨?_, ?_, ?_⟩
  · constructor
    · rintro ⟨c, hc, h⟩
      unfold migrate at h
      split at h
      case isTrue hnp => exact Or.inl hnp
      case isFalse hnp =>
        split at h
        case isTrue hsrc => exact Or.inr (Or.inl hsrc)
        case isFalse hsrc =>
          split at h
          case isTrue hdecl =>
            injection h with h1 h2
            exact absurd h1.symm hc
          case isFalse hdecl =>
            split at h
            case isTrue hmodel =>
              refine Or.inr (Or.inr ⟨?_, hmodel⟩)
              have hb : (pyLower (pyStrip env.userAnswer) == "y") = true := by
                simpa using hdecl
              exact beq_iff_eq.mp hb
            case isFalse => exact MigResult.noConfusion h
    · intro hr
      rcases hr with hnp | hsrc | ⟨hyes, hmodel⟩
      · exact ⟨1, one_ne_zero, by unfold migrate; rw [if_pos hnp]⟩
      · refine ⟨1, one_ne_zero, ?_⟩
        unfold migrate
        by_cases hnp : env.numpyAvailable = false
        · rw [if_pos hnp]
        · rw [if_neg hnp, if_pos hsrc]
      · refine ⟨1, one_ne_zero, ?_⟩
        unfold migrate
        by_cases hnp : env.numpyAvailable = false
        · rw [if_pos hnp]
        · by_cases hsrc : env.sourceDbExists = false
          · rw [if_neg hnp, if_pos hsrc]
          · rw [if_neg hnp, if_neg hsrc, if_neg (by simp [hyes]), if_pos hmodel]
  · intro hnp hsrc hans
    unfold migrate
    rw [if_neg (by simp [hnp]), if_neg (by simp [hsrc]),
      if_pos (by simp [beq_eq_false_iff_ne, hans])]
  · intro c dbx h
    unfold migrate at h
    split at h
    · injection h with h1 h2; exact h2.symm
    · split at h
      · injection h with h1 h2; exact h2.symm
      · split at h
        · injection h with h1 h2; exact h2.symm
        · split at h
          · injection h with h1 h2; exact h2.symm
          · exact MigResult.noConfusion h

/-- Witness for C4 amended: with the source database file absent, the
process exits with a non-zero status and an untouched destination. -/
theorem fatal_exit_codes_amended_w :
    ∃ c, c ≠ 0 ∧ migrate ⟨true, false, true, "y"⟩ (fun x => x) (fun _ => [])
      [] [] emptyDB = .exited c emptyDB :=
  (fatal_exit_codes_amended ⟨true, false, true, "y"⟩ (fun x => x) (fun _ => [])
    [] [] emptyDB).1.mpr (Or.inr (Or.inl rfl))

/-- C8: the vector codec's encode maps a vector of N float32 bit
patterns to a little-endian blob of exactly 4·N bytes, and decode
recovers the patterns bit-identically — NaN payloads, signed zeros and
denormals included, since the codec acts on raw bit patterns. -/
theorem vector_codec_roundtrip (v : List Nat) (h : ∀ w ∈ v, w < 2 ^ 32) :
    (encode_vector v).length = 4 * v.length
    ∧ decode_vector (encode_vector v) = v
    ∧ (∀ b ∈ encode_vector v, b < 256) := by
  induction v with
  | nil => exact ⟨rfl, rfl, by intro b hb; cases hb⟩
  | cons w v ih =>
    obtain ⟨hl, hd, hb⟩ := ih (fun x hx => h x (List.mem_cons_of_mem _ hx))
    have hw := h w (List.mem_cons_self _ _)
    have henc : encode_vector (w :: v) = word32ToBytesLE w ++ encode_vector v := rfl
    refine ⟨?_, ?_, ?_⟩
    · rw [henc, List.length_append, hl, word32ToBytesLE]
      simp
      ring
    · rw [henc]
      rw [show word32ToBytesLE w ++ encode_vector v
          = w % 256 :: (w / 256 % 256 :: (w / 256 ^ 2 % 256 ::
            (w / 256 ^ 3 % 256 :: encode_vector v))) from rfl]
      rw [decode_vector, hd]
      congr 1
      rw [bytesToWord32LE]
      have h32 : w < 4294967296 := by norm_num at hw; exact hw
      norm_num
      omega
    · intro b hbmem
      rw [henc] at hbmem
      rcases List.mem_append.mp hbmem with h1 | h1
      · rw [word32ToBytesLE] at h1
        simp only [List.mem_cons, List.mem_singleton, List.not_mem_nil, or_false] at h1
        rcases h1 with h1 | h1 | h1 | h1 <;>
          · rw [h1]; exact Nat.mod_lt _ (by norm_num)
      · exact hb b h1

/-- Witness for C8 on the spec's corner cases, as float32 bit
patterns: quiet NaN 0x7FC00000, negative zero 0x80000000, the smallest
denormal 0x00000001 and 1.0f = 0x3F800000 round-trip bit-identically
through a 16-byte blob. -/
theorem vector_codec_roundtrip_w :
    decode_vector (encode_vector [2143289344, 2147483648, 1, 1065353216])
      = [2143289344, 2147483648, 1, 1065353216]
    ∧ (encode_vector [2143289344, 2147483648, 1, 1065353216]).length = 4 * 4 := by
  have h := vector_codec_roundtrip [2143289344, 2147483648, 1, 1065353216]
    (by decide)
  exact ⟨h.2.1, h.1⟩

/-- C9: a coactivation entry whose raw weight fails float coercion is
dropped individually and silently — the extraction of the remaining
entries of the same record's mapping is unchanged, the record's row
construction is unaffected by its coactivation entries, and the memory
record itself is still inserted. -/
theorem bad_weight_dropped_individually (N : String → String)
    (E : Value → List Nat) (i d t0 : String) (v0 : Value)
    (m c1 c2 : List (String × Value)) (h0 : pyFloat v0 = none) :
    extractCoact i (c1 ++ (t0, v0) :: c2) = extractCoact i (c1 ++ c2)
    ∧ buildRow N ⟨i, d, m, c1 ++ (t0, v0) :: c2⟩ = buildRow N ⟨i, d, m, c1 ++ c2⟩
    ∧ (∀ row, buildRow N ⟨i, d, m, c1 ++ (t0, v0) :: c2⟩ = some row →
        thasKey (migrateRun N E [⟨i, d, m, c1 ++ (t0, v0) :: c2⟩] []
          emptyDB).memories i = true) := by
  refine ⟨?_, rfl, ?_⟩
  · unfold extractCoact
    rw [List.filterMap_append, List.filterMap_append, List.filterMap_cons]
    simp [h0]
  · intro row hrow
    have hm : memRows N [⟨i, d, m, c1 ++ (t0, v0) :: c2⟩] = [(i, row)] := by
      simp [memRows, hrow]
    show thasKey (applyAll (memRows N [⟨i, d, m, c1 ++ (t0, v0) :: c2⟩]) []) i = true
    rw [hm]
    exact thasKey_applyAll_of_mem [] (List.mem_singleton.mpr rfl)

/-- Witness for C9: a record with one malformed weight (the string
"abc") and one good weight still yields the good triple, and the
record's memory row is still inserted. -/
theorem bad_weight_dropped_individually_w :
    extractCoact "w9" ([] ++ ("tA", Value.vStr "abc") :: [("tB", Value.vFloat (1 / 2))])
      = extractCoact "w9" ([] ++ [("tB", Value.vFloat (1 / 2))])
    ∧ thasKey (migrateRun (fun x => x) (fun _ => [])
        [⟨"w9", "d9", [], [] ++ ("tA", Value.vStr "abc") :: [("tB", Value.vFloat (1 / 2))]⟩]
        [] emptyDB).memories "w9" = true := by
  have h := bad_weight_dropped_individually (fun x => x) (fun _ => [])
    "w9" "d9" "tA" (.vStr "abc") [] [] [("tB", .vFloat (1 / 2))] (by decide)
  cases hrow : buildRow (fun x => x)
      ⟨"w9", "d9", [], [] ++ ("tA", Value.vStr "abc") :: [("tB", Value.vFloat (1 / 2))]⟩ with
  | none => exact absurd hrow (by decide)
  | some row => exact ⟨h.1, h.2.2 row hrow⟩

/-- C10 (implicit): a record carrying a numeric-typed metadata field
(importance, access_count, novelty_score, prediction_error,
activation_count) whose value fails `int()`/`float()` coercion is
skipped entirely by the per-record handler: its row build fails, so —
in a run over just that record — its id is excluded from the
persisted-memory set, and no memory, embedding or coactivation row is
stored, however many triples its coactivation mapping carries. -/
theorem bad_numeric_field_skips_record (N : String → String)
    (E : Value → List Nat) (r : MigRecord) (es : List MigRecord) :
    (∀ v, tlookup r.meta "importance" = some v → pyInt v = none →
      buildRow N r = none)
    ∧ (∀ v, tlookup r.meta "access_count" = some v → pyInt v = none →
      buildRow N r = none)
    ∧ (∀ v, tlookup r.meta "novelty_score" = some v → pyFloat v = none →
      buildRow N r = none)
    ∧ (∀ v, tlookup r.meta "prediction_error" = some v → pyFloat v = none →
      buildRow N r = none)
    ∧ (∀ v, tlookup r.meta "activation_count" = some v → pyInt v = none →
      buildRow N r = none)
    ∧ (buildRow N r = none →
        successIds N [r] = []
        ∧ (migrateRun N E [r] es emptyDB).memories = []
        ∧ (migrateRun N E [r] es emptyDB).embeddings = []
        ∧ (migrateRun N E [r] es emptyDB).coactivation = []) := by
  refine ⟨?_, ?_, ?_, ?_, ?_, ?_⟩
  · intro v hv hc
    exact buildRow_none_of_importance (by rw [mget, hv, Option.getD_some, hc])
  · intro v hv hc
    exact buildRow_none_of_access_count (by rw [mget, hv, Option.getD_some, hc])
  · intro v hv hc
    exact buildRow_none_of_novelty (by rw [mget, hv, Option.getD_some, hc])
  · intro v hv hc
    exact buildRow_none_of_prediction (by rw [mget, hv, Option.getD_some, hc])
  · intro v hv hc
    exact buildRow_none_of_activation (by rw [mget, hv, Option.getD_some, hc])
  · intro hnone
    have hids : successIds N [r] = [] := by simp [successIds, hnone]
    refine ⟨hids, ?_, ?_, ?_⟩
    · show applyAll (memRows N [r]) [] = []
      have : memRows N [r] = [] := by simp [memRows, hnone]
      rw [this]
      rfl
    · show applyAll (embRows N E [r]) [] = []
      have : validPairs N [r] = [] := by simp [validPairs, hnone]
      rw [embRows, this]
      rfl
    · show applyAll (coactRows N [r]) [] = []
      have : coactRows N [r] = [] := by
        rw [coactRows, hids]
        simp
      rw [this]
      rfl

/-- Witness for C10: a record whose novelty_score is the string "abc"
is skipped — no memory, embedding or coactivation row — even though
its coactivation mapping holds a perfectly good triple. -/
theorem bad_numeric_field_skips_record_w :
    buildRow (fun x => x) ⟨"w10", "d10", [("novelty_score", .vStr "abc")],
      [("t", .vFloat (1 / 2))]⟩ = none
    ∧ (migrateRun (fun x => x) (fun _ => [])
        [⟨"w10", "d10", [("novelty_score", .vStr "abc")], [("t", .vFloat (1 / 2))]⟩]
        [] emptyDB).memories = []
    ∧ (migrateRun (fun x => x) (fun _ => [])
        [⟨"w10", "d10", [("novelty_score", .vStr "abc")], [("t", .vFloat (1 / 2))]⟩]
        [] emptyDB).coactivation = [] := by
  have h := bad_numeric_field_skips_record (fun x => x) (fun _ => [])
    ⟨"w10", "d10", [("novelty_score", .vStr "abc")], [("t", .vFloat (1 / 2))]⟩ []
  have hnone := h.2.2.1 (.vStr "abc") rfl (by decide)
  obtain ⟨_, hmem, _, hcoa⟩ := h.2.2.2.2.2 hnone
  exact ⟨hnone, hmem, hcoa⟩

end MemMig
